import Mathlib

/-!
Shallow embedding of the Git-status reconciliation logic and the Git action
controller of the CommitNotes note-taking application (the `GitControls`
renderer component, its preload Git API and the persisted settings shape),
together with theorems checking the natural-language specification against it.

The embedding mirrors the source:
* the status-matrix enumerations and the `GitStatus` record come from the
  renderer type declarations (`HeadStatus`, `WorkdirStatus`, `StageStatus`,
  `GitStatus`, and the status-matrix rows);
* `classify` is the `statusMatrix.forEach` conversion loop inside
  `fetchGitStatus`, written as a left fold over the same per-entry pushes;
* each `handle…` function is the corresponding event handler of the
  component, returning the updated component state together with the ordered
  trace of external Git calls it issued (`window.api.git.…`), with the
  outcome of every external call supplied by a `GitEnv` environment record.
-/

/-- Whether the file exists in the last commit (`HeadStatus`). -/
inductive HeadStatus where
  | ABSENT
  | PRESENT
deriving DecidableEq, Repr

/-- Working-tree state relative to HEAD (`WorkdirStatus`). -/
inductive WorkdirStatus where
  | ABSENT
  | IDENTICAL
  | MODIFIED
deriving DecidableEq, Repr

/-- Stage/index state relative to HEAD and worktree (`StageStatus`). -/
inductive StageStatus where
  | ABSENT
  | IDENTICAL
  | MODIFIED
  | MODIFIED_AGAIN
deriving DecidableEq, Repr

/-- One row of the status matrix: `[filename, head, workTree, stage]`. -/
structure StatusMatrixEntry where
  filename : String
  head : HeadStatus
  workTree : WorkdirStatus
  stage : StageStatus
deriving DecidableEq, Repr

/-- One classified change: `{ filename, isDeleted }`. -/
structure FileChange where
  filename : String
  isDeleted : Bool
deriving DecidableEq, Repr

/-- The derived classification: `{ staged, unstaged }` lists (`GitStatus`). -/
structure GitStatus where
  staged : List FileChange
  unstaged : List FileChange
deriving DecidableEq, Repr

/-- One iteration of the `statusMatrix.forEach` body in `fetchGitStatus`:
given the accumulated `GitStatus` and one matrix row, perform the same
conditional pushes onto `staged` / `unstaged` as the source. -/
def classifyStep (gs : GitStatus) (status : StatusMatrixEntry) : GitStatus :=
  if status.stage = StageStatus.ABSENT then
    -- [0,2,0]: untracked new file
    let gs1 :=
      if status.workTree = WorkdirStatus.MODIFIED ∧ status.head = HeadStatus.ABSENT then
        { gs with unstaged := gs.unstaged ++ [⟨status.filename, false⟩] }
      else gs
    -- [1,0,0]: staged deletion
    if status.workTree = WorkdirStatus.ABSENT ∧ status.head = HeadStatus.PRESENT then
      { gs1 with staged := gs1.staged ++ [⟨status.filename, true⟩] }
    else gs1
  else if status.stage = StageStatus.IDENTICAL then
    -- [1,0,1]: unstaged deletion
    let gs1 :=
      if status.workTree = WorkdirStatus.ABSENT then
        { gs with unstaged := gs.unstaged ++ [⟨status.filename, true⟩] }
      else gs
    -- [1,2,1]: unstaged modification
    if status.workTree = WorkdirStatus.MODIFIED then
      { gs1 with unstaged := gs1.unstaged ++ [⟨status.filename, false⟩] }
    else gs1
  else if status.stage = StageStatus.MODIFIED then
    -- [1,2,2] / [0,2,2]: staged modification or addition
    if status.workTree = WorkdirStatus.MODIFIED then
      { gs with staged := gs.staged ++ [⟨status.filename, false⟩] }
    else gs
  else if status.stage = StageStatus.MODIFIED_AGAIN then
    -- [1,2,3]: staged and further modified
    if status.workTree = WorkdirStatus.MODIFIED then
      { gs with
          unstaged := gs.unstaged ++ [⟨status.filename, false⟩],
          staged := gs.staged ++ [⟨status.filename, false⟩] }
    else gs
  else gs

/-- The `statusMatrix.forEach` conversion loop of `fetchGitStatus`: starting
from `{ staged: [], unstaged: [] }`, fold `classifyStep` over the matrix. -/
def classify (matrix : List StatusMatrixEntry) : GitStatus :=
  matrix.foldl classifyStep ⟨[], []⟩

/-- Written from the spec's case table (refinement reference, not from the
source): the `staged` contribution of a single matrix row. -/
def specStagedOf (e : StatusMatrixEntry) : List FileChange :=
  match e.head, e.workTree, e.stage with
  | HeadStatus.PRESENT, WorkdirStatus.ABSENT, StageStatus.ABSENT => [⟨e.filename, true⟩]
  | _, WorkdirStatus.MODIFIED, StageStatus.MODIFIED => [⟨e.filename, false⟩]
  | _, WorkdirStatus.MODIFIED, StageStatus.MODIFIED_AGAIN => [⟨e.filename, false⟩]
  | _, _, _ => []

/-- Written from the spec's case table (refinement reference, not from the
source): the `unstaged` contribution of a single matrix row. -/
def specUnstagedOf (e : StatusMatrixEntry) : List FileChange :=
  match e.head, e.workTree, e.stage with
  | HeadStatus.ABSENT, WorkdirStatus.MODIFIED, StageStatus.ABSENT => [⟨e.filename, false⟩]
  | _, WorkdirStatus.ABSENT, StageStatus.IDENTICAL => [⟨e.filename, true⟩]
  | _, WorkdirStatus.MODIFIED, StageStatus.IDENTICAL => [⟨e.filename, false⟩]
  | _, WorkdirStatus.MODIFIED, StageStatus.MODIFIED_AGAIN => [⟨e.filename, false⟩]
  | _, _, _ => []

lemma classifyStep_eq (gs : GitStatus) (e : StatusMatrixEntry) :
    classifyStep gs e =
      ⟨gs.staged ++ specStagedOf e, gs.unstaged ++ specUnstagedOf e⟩ := by
  rcases e with ⟨f, h, w, st⟩
  cases h <;> cases w <;> cases st <;>
    simp [classifyStep, specStagedOf, specUnstagedOf]

lemma foldl_classifyStep (gs : GitStatus) (m : List StatusMatrixEntry) :
    m.foldl classifyStep gs =
      ⟨gs.staged ++ m.flatMap specStagedOf, gs.unstaged ++ m.flatMap specUnstagedOf⟩ := by
  induction m generalizing gs with
  | nil => simp
  | cons e rest ih =>
      rw [List.foldl_cons, classifyStep_eq, ih]
      simp

/-- C1: `classify` realises the spec's six-row case table — each matrix row
contributes exactly the staged/unstaged entries the table assigns to its
`(head, workTree, stage)` combination, rows outside the table contribute to
neither list, and both output lists preserve the relative order of the input
sequence (each list is the in-order concatenation of the per-row
contributions). -/
theorem classify_matches_case_table (m : List StatusMatrixEntry) :
    (classify m).staged = m.flatMap specStagedOf ∧
    (classify m).unstaged = m.flatMap specUnstagedOf := by
  rw [classify, foldl_classifyStep]
  exact ⟨rfl, rfl⟩

/-- C2: the classifier is a deterministic function of the input matrix: two
runs on the same input yield the same `GitStatus` (in this embedding the
input matrix is a value, so the classification cannot mutate it). -/
theorem classify_deterministic (m1 m2 : List StatusMatrixEntry)
    (h : m1 = m2) : classify m1 = classify m2 := by
  rw [h]

/-- Witness for C2 at a concrete matrix. -/
theorem classify_deterministic_witness :
    classify [⟨"a.md", HeadStatus.ABSENT, WorkdirStatus.MODIFIED, StageStatus.ABSENT⟩] =
      classify [⟨"a.md", HeadStatus.ABSENT, WorkdirStatus.MODIFIED, StageStatus.ABSENT⟩] :=
  classify_deterministic _ _ rfl

/-- Commit author identity (`{ name, email }`), as persisted in settings. -/
structure Author where
  name : String
  email : String
deriving DecidableEq, Repr

/-- Git section of the persisted application settings (`AppSettings.git`). -/
structure GitSettings where
  remoteUrl : String
  token : String
  author : Author
deriving DecidableEq, Repr

/-- Persisted application settings (`AppSettings`). -/
structure AppSettings where
  rootDirectoryPath : String
  git : GitSettings
deriving DecidableEq, Repr

/-- The React state of the `GitControls` component: `commitMessage`,
`isLoading`, `gitStatus`, `statusMessage`, `isExpanded`. -/
structure ControllerState where
  commitMessage : String
  isLoading : Bool
  gitStatus : Option GitStatus
  statusMessage : String
  isExpanded : Bool
deriving DecidableEq, Repr

/-- One external Git call issued through `window.api.git`, carrying exactly
the arguments the renderer passes. -/
inductive GitCall where
  | status
  | add (filename : String)
  | unstage (filename : String)
  | commit (message : String)
  | push
  | pull
deriving DecidableEq, Repr

/-- Environment fixing the outcome of each external call for one execution:
`statusResult` is the resolved matrix (`none` = the status promise rejected),
`addOk f` / `unstageOk f` tell whether staging / unstaging file `f` resolves,
`commitResult` is the resolved content hash (`none` = rejected), and
`pushOk` / `pullOk` whether push / pull resolve. `settings` is the persisted
`AppSettings` record held by the external settings collaborator. -/
structure GitEnv where
  statusResult : Option (List StatusMatrixEntry)
  addOk : String → Bool
  unstageOk : String → Bool
  commitResult : Option String
  pushOk : Bool
  pullOk : Bool
  settings : AppSettings

/-- `getFileName`: keep only the last `/`-separated component of a path
(`path.split('/').pop() || path`). -/
def getFileName (path : String) : String :=
  let last := (path.splitOn "/").getLastD ""
  if last = "" then path else last

/-- `fetchGitStatus` (state part): await `window.api.git.status()`; on
success classify the matrix and replace `gitStatus`; the internal `catch`
turns a rejection into the fetch-failure status message, leaving `gitStatus`
untouched. Each run issues exactly one `GitCall.status` (recorded at the
call sites). -/
def fetchGitStatus (env : GitEnv) (s : ControllerState) : ControllerState :=
  match env.statusResult with
  | some statusMatrix => { s with gitStatus := some (classify statusMatrix) }
  | none => { s with statusMessage := "Gitステータスの取得に失敗しました" }

/-- `commitMessageDisabled`: the commit-message textarea is disabled when no
classification exists or the staged list is empty. -/
def commitMessageDisabled (s : ControllerState) : Bool :=
  match s.gitStatus with
  | none => true
  | some gs => gs.staged.length == 0

/-- `handleCommit`: early-return on empty message; otherwise set loading,
await `git.commit(commitMessage)`; on success report the 7-character hash
abbreviation, clear the message input and refresh the status; on failure
report the commit-failure message; `finally` clear the loading flag. -/
def handleCommit (env : GitEnv) (s : ControllerState) : ControllerState × List GitCall :=
  if s.commitMessage = "" then (s, [])
  else
    let s1 := { s with isLoading := true }
    match env.commitResult with
    | some sha =>
        let s2 := { s1 with
          statusMessage := "変更をコミットしました: " ++ sha.take 7,
          commitMessage := "" }
        ({ fetchGitStatus env s2 with isLoading := false },
         [GitCall.commit s.commitMessage, GitCall.status])
    | none =>
        ({ s1 with statusMessage := "コミットに失敗しました", isLoading := false },
         [GitCall.commit s.commitMessage])

/-- `handlePush`: set loading, await `git.push()`, report success or failure,
`finally` clear the loading flag. No status refresh. -/
def handlePush (env : GitEnv) (s : ControllerState) : ControllerState × List GitCall :=
  let s1 := { s with isLoading := true }
  if env.pushOk then
    ({ s1 with statusMessage := "変更をGitHubにプッシュしました", isLoading := false },
     [GitCall.push])
  else
    ({ s1 with statusMessage := "プッシュに失敗しました", isLoading := false },
     [GitCall.push])

/-- `handlePull`: set loading, await `git.pull()`; on success report and
refresh the status; on failure report; `finally` clear the loading flag. -/
def handlePull (env : GitEnv) (s : ControllerState) : ControllerState × List GitCall :=
  let s1 := { s with isLoading := true }
  if env.pullOk then
    let s2 := { s1 with statusMessage := "GitHubから最新の変更を取得しました" }
    ({ fetchGitStatus env s2 with isLoading := false }, [GitCall.pull, GitCall.status])
  else
    ({ s1 with statusMessage := "プルに失敗しました", isLoading := false }, [GitCall.pull])

/-- The `for (const file of gitStatus.unstaged)` loop of `handleStageAll`:
await `git.add(file.filename)` for each entry in order; a rejection aborts
the loop (the `await` throws into the surrounding `catch`). Returns whether
every call resolved, together with the ordered trace of issued calls. -/
def stageAllCalls (env : GitEnv) : List FileChange → Bool × List GitCall
  | [] => (true, [])
  | f :: rest =>
      if env.addOk f.filename then
        let r := stageAllCalls env rest
        (r.1, GitCall.add f.filename :: r.2)
      else (false, [GitCall.add f.filename])

/-- `handleStageAll`: early-return when there is no classification or
`unstaged` is empty; otherwise set loading, stage every unstaged file in
sequence, then on success report and refresh the status, on a rejection
report the staging failure; `finally` clear the loading flag. -/
def handleStageAll (env : GitEnv) (s : ControllerState) : ControllerState × List GitCall :=
  match s.gitStatus with
  | none => (s, [])
  | some gs =>
      if gs.unstaged.length == 0 then (s, [])
      else
        let s1 := { s with isLoading := true }
        let r := stageAllCalls env gs.unstaged
        if r.1 then
          let s2 := { s1 with statusMessage := "すべての変更をステージングしました" }
          ({ fetchGitStatus env s2 with isLoading := false }, r.2 ++ [GitCall.status])
        else
          ({ s1 with statusMessage := "変更のステージングに失敗しました", isLoading := false },
           r.2)

/-- `handleStageFile`: set loading, await `git.add(filename)`; on success
report and refresh the status; on failure report; `finally` clear the
loading flag. -/
def handleStageFile (env : GitEnv) (filename : String) (s : ControllerState) :
    ControllerState × List GitCall :=
  let s1 := { s with isLoading := true }
  if env.addOk filename then
    let s2 := { s1 with statusMessage := getFileName filename ++ " をステージングしました" }
    ({ fetchGitStatus env s2 with isLoading := false },
     [GitCall.add filename, GitCall.status])
  else
    ({ s1 with
        statusMessage := getFileName filename ++ " のステージングに失敗しました",
        isLoading := false },
     [GitCall.add filename])

/-- `handleUnstageFile`: set loading, await `git.unstage(filename)`; on
success report and refresh the status; on failure report; `finally` clear
the loading flag. -/
def handleUnstageFile (env : GitEnv) (filename : String) (s : ControllerState) :
    ControllerState × List GitCall :=
  let s1 := { s with isLoading := true }
  if env.unstageOk filename then
    let s2 := { s1 with
      statusMessage := getFileName filename ++ " のステージングを取り消しました" }
    ({ fetchGitStatus env s2 with isLoading := false },
     [GitCall.unstage filename, GitCall.status])
  else
    ({ s1 with
        statusMessage := getFileName filename ++ " のステージング取り消しに失敗しました",
        isLoading := false },
     [GitCall.unstage filename])

/-- The `for (const file of gitStatus.staged)` loop of `handleUnstageAll`:
await `git.unstage(file.filename)` for each entry in order; a rejection
aborts the loop. -/
def unstageAllCalls (env : GitEnv) : List FileChange → Bool × List GitCall
  | [] => (true, [])
  | f :: rest =>
      if env.unstageOk f.filename then
        let r := unstageAllCalls env rest
        (r.1, GitCall.unstage f.filename :: r.2)
      else (false, [GitCall.unstage f.filename])

/-- `handleUnstageAll`: early-return when there is no classification or
`staged` is empty; otherwise set loading, unstage every staged file in
sequence, then on success report and refresh the status, on a rejection
report the failure; `finally` clear the loading flag. -/
def handleUnstageAll (env : GitEnv) (s : ControllerState) : ControllerState × List GitCall :=
  match s.gitStatus with
  | none => (s, [])
  | some gs =>
      if gs.staged.length == 0 then (s, [])
      else
        let s1 := { s with isLoading := true }
        let r := unstageAllCalls env gs.staged
        if r.1 then
          let s2 := { s1 with statusMessage := "すべてのステージングを取り消しました" }
          ({ fetchGitStatus env s2 with isLoading := false }, r.2 ++ [GitCall.status])
        else
          ({ s1 with statusMessage := "ステージング取り消しに失敗しました", isLoading := false },
           r.2)

/-- Modelled from the spec: the external commit capability (the main-process
side of the `git:commit` bridge, whose implementation is not among the
sources here) receives the commit message from the renderer and sources the
author identity from the persisted settings, invoking the underlying engine
commit with both. This record is the request that reaches the engine. -/
structure EngineCommitRequest where
  message : String
  author : Author
deriving DecidableEq, Repr

/-- Modelled from the spec: build the engine-level commit request from the
renderer-supplied message and the persisted settings' author identity. -/
def commitCapability (settings : AppSettings) (message : String) : EngineCommitRequest :=
  { message := message, author := settings.git.author }

/-- The engine-level commit requests produced by a renderer call trace: each
`GitCall.commit` is forwarded through `commitCapability`. -/
def engineCommits (settings : AppSettings) (calls : List GitCall) : List EngineCommitRequest :=
  calls.filterMap fun c =>
    match c with
    | GitCall.commit msg => some (commitCapability settings msg)
    | _ => none

lemma stageAllCalls_all_ok (env : GitEnv) (l : List FileChange)
    (h : ∀ f ∈ l, env.addOk f.filename = true) :
    stageAllCalls env l = (true, l.map fun f => GitCall.add f.filename) := by
  induction l with
  | nil => rfl
  | cons f rest ih =>
      have hf : env.addOk f.filename = true := h f (by simp)
      have hr := ih fun x hx => h x (by simp [hx])
      simp [stageAllCalls, hf, hr]

lemma unstageAllCalls_all_ok (env : GitEnv) (l : List FileChange)
    (h : ∀ f ∈ l, env.unstageOk f.filename = true) :
    unstageAllCalls env l = (true, l.map fun f => GitCall.unstage f.filename) := by
  induction l with
  | nil => rfl
  | cons f rest ih =>
      have hf : env.unstageOk f.filename = true := h f (by simp)
      have hr := ih fun x hx => h x (by simp [hx])
      simp [unstageAllCalls, hf, hr]

lemma stageAllCalls_abort (env : GitEnv) (pre post : List FileChange) (f : FileChange)
    (hpre : ∀ g ∈ pre, env.addOk g.filename = true)
    (hf : env.addOk f.filename = false) :
    stageAllCalls env (pre ++ f :: post) =
      (false, pre.map (fun g => GitCall.add g.filename) ++ [GitCall.add f.filename]) := by
  induction pre with
  | nil => simp [stageAllCalls, hf]
  | cons g rest ih =>
      have hg : env.addOk g.filename = true := hpre g (by simp)
      have hr := ih fun x hx => hpre x (by simp [hx])
      simp [stageAllCalls, hg, hr]

lemma unstageAllCalls_abort (env : GitEnv) (pre post : List FileChange) (f : FileChange)
    (hpre : ∀ g ∈ pre, env.unstageOk g.filename = true)
    (hf : env.unstageOk f.filename = false) :
    unstageAllCalls env (pre ++ f :: post) =
      (false, pre.map (fun g => GitCall.unstage g.filename) ++ [GitCall.unstage f.filename]) := by
  induction pre with
  | nil => simp [unstageAllCalls, hf]
  | cons g rest ih =>
      have hg : env.unstageOk g.filename = true := hpre g (by simp)
      have hr := ih fun x hx => hpre x (by simp [hx])
      simp [unstageAllCalls, hg, hr]

lemma fetchGitStatus_commitMessage (env : GitEnv) (s : ControllerState) :
    (fetchGitStatus env s).commitMessage = s.commitMessage := by
  cases h : env.statusResult <;> simp [fetchGitStatus, h]

/-- C3: with a current classification whose `unstaged` list is non-empty and
every per-file stage call succeeding, `handleStageAll` issues exactly one
`git.add` per unstaged entry, in list order, followed by exactly one status
refresh; with `unstaged` empty or no classification at all it performs no
external call and leaves the state unchanged. -/
theorem handleStageAll_call_discipline (env : GitEnv) (s : ControllerState) :
    (∀ gs, s.gitStatus = some gs → gs.unstaged ≠ [] →
      (∀ f ∈ gs.unstaged, env.addOk f.filename = true) →
      (handleStageAll env s).2 =
        gs.unstaged.map (fun f => GitCall.add f.filename) ++ [GitCall.status]) ∧
    (∀ gs, s.gitStatus = some gs → gs.unstaged = [] → handleStageAll env s = (s, [])) ∧
    (s.gitStatus = none → handleStageAll env s = (s, [])) := by
  refine ⟨?_, ?_, ?_⟩
  · intro gs hgs hne hok
    have hlen : (gs.unstaged.length == 0) = false := by
      simpa [List.length_eq_zero] using hne
    have hcalls := stageAllCalls_all_ok env gs.unstaged hok
    simp [handleStageAll, hgs, hlen, hcalls]
  · intro gs hgs hemp
    simp [handleStageAll, hgs, hemp]
  · intro hgs
    simp [handleStageAll, hgs]

/-- Witness for C3: staging `unstaged = [x (not deleted), y (deleted)]` with
every call succeeding issues `add x`, `add y`, then one status refresh. -/
theorem handleStageAll_call_discipline_witness :
    (handleStageAll
        ⟨some [], fun _ => true, fun _ => true, some "sha", true, true,
          ⟨"/notes", ⟨"origin", "tok", ⟨"u", "u@example.com"⟩⟩⟩⟩
        ⟨"", false, some ⟨[], [⟨"x", false⟩, ⟨"y", true⟩]⟩, "", false⟩).2 =
      [GitCall.add "x", GitCall.add "y", GitCall.status] := by
  have h := (handleStageAll_call_discipline
      ⟨some [], fun _ => true, fun _ => true, some "sha", true, true,
        ⟨"/notes", ⟨"origin", "tok", ⟨"u", "u@example.com"⟩⟩⟩⟩
      ⟨"", false, some ⟨[], [⟨"x", false⟩, ⟨"y", true⟩]⟩, "", false⟩).1
      ⟨[], [⟨"x", false⟩, ⟨"y", true⟩]⟩ rfl (by decide) (by intro f hf; rfl)
  simpa using h

/-- C4: each of the seven mutating handlers finishes with the loading flag
cleared on every execution path that issued its external call (success or
failure alike — the `finally` cleanup), and likewise on the guard
early-return paths provided the controller was not already in `Loading` when
invoked (which is every state reachable between completed handler runs). -/
theorem handlers_end_idle (env : GitEnv) (filename : String) (s : ControllerState) :
    (s.isLoading = false ∨ (handleCommit env s).2 ≠ [] →
      (handleCommit env s).1.isLoading = false) ∧
    (s.isLoading = false ∨ (handlePush env s).2 ≠ [] →
      (handlePush env s).1.isLoading = false) ∧
    (s.isLoading = false ∨ (handlePull env s).2 ≠ [] →
      (handlePull env s).1.isLoading = false) ∧
    (s.isLoading = false ∨ (handleStageFile env filename s).2 ≠ [] →
      (handleStageFile env filename s).1.isLoading = false) ∧
    (s.isLoading = false ∨ (handleUnstageFile env filename s).2 ≠ [] →
      (handleUnstageFile env filename s).1.isLoading = false) ∧
    (s.isLoading = false ∨ (handleStageAll env s).2 ≠ [] →
      (handleStageAll env s).1.isLoading = false) ∧
    (s.isLoading = false ∨ (handleUnstageAll env s).2 ≠ [] →
      (handleUnstageAll env s).1.isLoading = false) := by
  refine ⟨?_, ?_, ?_, ?_, ?_, ?_, ?_⟩
  · intro ht
    by_cases hm : s.commitMessage = ""
    · rcases ht with h | h
      · simpa [handleCommit, hm] using h
      · exact absurd (by simp [handleCommit, hm]) h
    · cases hcr : env.commitResult <;> simp [handleCommit, hm, hcr]
  · intro _
    cases hp : env.pushOk <;> simp [handlePush, hp]
  · intro _
    cases hp : env.pullOk <;> simp [handlePull, hp]
  · intro _
    cases ha : env.addOk filename <;> simp [handleStageFile, ha]
  · intro _
    cases hu : env.unstageOk filename <;> simp [handleUnstageFile, hu]
  · intro ht
    cases hgs : s.gitStatus with
    | none =>
        rcases ht with h | h
        · simpa [handleStageAll, hgs] using h
        · exact absurd (by simp [handleStageAll, hgs]) h
    | some gs =>
        by_cases hlen : (gs.unstaged.length == 0) = true
        · rcases ht with h | h
          · simpa [handleStageAll, hgs, hlen] using h
          · exact absurd (by simp [handleStageAll, hgs, hlen]) h
        · have hlen' : (gs.unstaged.length == 0) = false := by
            simpa using hlen
          cases hb : (stageAllCalls env gs.unstaged).1 <;>
            simp [handleStageAll, hgs, hlen', hb]
  · intro ht
    cases hgs : s.gitStatus with
    | none =>
        rcases ht with h | h
        · simpa [handleUnstageAll, hgs] using h
        · exact absurd (by simp [handleUnstageAll, hgs]) h
    | some gs =>
        by_cases hlen : (gs.staged.length == 0) = true
        · rcases ht with h | h
          · simpa [handleUnstageAll, hgs, hlen] using h
          · exact absurd (by simp [handleUnstageAll, hgs, hlen]) h
        · have hlen' : (gs.staged.length == 0) = false := by
            simpa using hlen
          cases hb : (unstageAllCalls env gs.staged).1 <;>
            simp [handleUnstageAll, hgs, hlen', hb]

/-- Witness for C4 at a concrete environment and state in which all seven
handlers reach their external call. -/
theorem handlers_end_idle_witness :
    ((handleCommit
        ⟨some [], fun _ => true, fun _ => true, some "sha", true, true,
          ⟨"/notes", ⟨"origin", "tok", ⟨"u", "u@example.com"⟩⟩⟩⟩
        ⟨"msg", false, some ⟨[⟨"s.md", false⟩], [⟨"u.md", false⟩]⟩, "", false⟩).1.isLoading
      = false) ∧
    ((handleStageAll
        ⟨some [], fun _ => true, fun _ => true, some "sha", true, true,
          ⟨"/notes", ⟨"origin", "tok", ⟨"u", "u@example.com"⟩⟩⟩⟩
        ⟨"msg", false, some ⟨[⟨"s.md", false⟩], [⟨"u.md", false⟩]⟩, "", false⟩).1.isLoading
      = false) ∧
    ((handleUnstageAll
        ⟨some [], fun _ => true, fun _ => true, some "sha", true, true,
          ⟨"/notes", ⟨"origin", "tok", ⟨"u", "u@example.com"⟩⟩⟩⟩
        ⟨"msg", false, some ⟨[⟨"s.md", false⟩], [⟨"u.md", false⟩]⟩, "", false⟩).1.isLoading
      = false) := by
  have h := handlers_end_idle
      ⟨some [], fun _ => true, fun _ => true, some "sha", true, true,
        ⟨"/notes", ⟨"origin", "tok", ⟨"u", "u@example.com"⟩⟩⟩⟩
      "a/b.md"
      ⟨"msg", false, some ⟨[⟨"s.md", false⟩], [⟨"u.md", false⟩]⟩, "", false⟩
  exact ⟨h.1 (Or.inr (by decide)), h.2.2.2.2.2.1 (Or.inl rfl),
    h.2.2.2.2.2.2 (Or.inr (by decide))⟩

/-- C5: the status refresh is a total state transformer (the internal
`catch` keeps any rejection from escaping the controller): when the external
fetch rejects, the only change is the user-facing failure message — in
particular the previous classification is kept verbatim; when it resolves,
the classification of the fresh matrix replaces the current one. -/
theorem fetchGitStatus_behaviour (env : GitEnv) (s : ControllerState) :
    (env.statusResult = none →
      fetchGitStatus env s =
        { s with statusMessage := "Gitステータスの取得に失敗しました" }) ∧
    (∀ m, env.statusResult = some m →
      fetchGitStatus env s = { s with gitStatus := some (classify m) }) := by
  constructor
  · intro h
    simp [fetchGitStatus, h]
  · intro m h
    simp [fetchGitStatus, h]

/-- Witness for C5: a failing fetch keeps the classification and sets the
failure message; a succeeding fetch replaces the classification. -/
theorem fetchGitStatus_behaviour_witness :
    (fetchGitStatus
        ⟨none, fun _ => true, fun _ => true, some "sha", true, true,
          ⟨"/notes", ⟨"origin", "tok", ⟨"u", "u@example.com"⟩⟩⟩⟩
        ⟨"", false, some ⟨[⟨"s.md", false⟩], []⟩, "", false⟩).gitStatus =
      some ⟨[⟨"s.md", false⟩], []⟩ ∧
    (fetchGitStatus
        ⟨some [⟨"n.md", HeadStatus.ABSENT, WorkdirStatus.MODIFIED, StageStatus.ABSENT⟩],
          fun _ => true, fun _ => true, some "sha", true, true,
          ⟨"/notes", ⟨"origin", "tok", ⟨"u", "u@example.com"⟩⟩⟩⟩
        ⟨"", false, none, "", false⟩).gitStatus =
      some (classify [⟨"n.md", HeadStatus.ABSENT, WorkdirStatus.MODIFIED, StageStatus.ABSENT⟩]) := by
  constructor
  · have h := (fetchGitStatus_behaviour
        ⟨none, fun _ => true, fun _ => true, some "sha", true, true,
          ⟨"/notes", ⟨"origin", "tok", ⟨"u", "u@example.com"⟩⟩⟩⟩
        ⟨"", false, some ⟨[⟨"s.md", false⟩], []⟩, "", false⟩).1 rfl
    rw [h]
  · have h := (fetchGitStatus_behaviour
        ⟨some [⟨"n.md", HeadStatus.ABSENT, WorkdirStatus.MODIFIED, StageStatus.ABSENT⟩],
          fun _ => true, fun _ => true, some "sha", true, true,
          ⟨"/notes", ⟨"origin", "tok", ⟨"u", "u@example.com"⟩⟩⟩⟩
        ⟨"", false, none, "", false⟩).2 _ rfl
    rw [h]

/-- C6: every run of the commit operation that reaches the external call
(message non-empty, success or failure alike) hands the external commit
capability exactly one request, carrying the commit message together with
the author identity sourced from the persisted settings. -/
theorem handleCommit_engine_request (env : GitEnv) (s : ControllerState)
    (h : s.commitMessage ≠ "") :
    engineCommits env.settings (handleCommit env s).2 =
      [{ message := s.commitMessage, author := env.settings.git.author }] := by
  cases hcr : env.commitResult <;>
    simp [handleCommit, h, hcr, engineCommits, commitCapability]

/-- Witness for C6 with a concrete message and persisted author. -/
theorem handleCommit_engine_request_witness :
    engineCommits
        ⟨"/notes", ⟨"origin", "tok", ⟨"u", "u@example.com"⟩⟩⟩
        (handleCommit
          ⟨some [], fun _ => true, fun _ => true, some "sha", true, true,
            ⟨"/notes", ⟨"origin", "tok", ⟨"u", "u@example.com"⟩⟩⟩⟩
          ⟨"add note", false, some ⟨[⟨"s.md", false⟩], []⟩, "", false⟩).2 =
      [{ message := "add note", author := ⟨"u", "u@example.com"⟩ }] :=
  handleCommit_engine_request
    ⟨some [], fun _ => true, fun _ => true, some "sha", true, true,
      ⟨"/notes", ⟨"origin", "tok", ⟨"u", "u@example.com"⟩⟩⟩⟩
    ⟨"add note", false, some ⟨[⟨"s.md", false⟩], []⟩, "", false⟩
    (by decide)

/-- C7: when the external commit call resolves with a content hash, the
handler clears the commit-message input, issues exactly one status refresh
after the commit call, and (once that refresh resolves) the status message
is the commit report carrying exactly the first 7 characters of the hash. -/
theorem handleCommit_success (env : GitEnv) (s : ControllerState) (sha : String)
    (hmsg : s.commitMessage ≠ "") (hok : env.commitResult = some sha) :
    (handleCommit env s).1.commitMessage = "" ∧
    (handleCommit env s).2 = [GitCall.commit s.commitMessage, GitCall.status] ∧
    (∀ m, env.statusResult = some m →
      (handleCommit env s).1.statusMessage = "変更をコミットしました: " ++ sha.take 7) := by
  refine ⟨?_, ?_, ?_⟩
  · simp [handleCommit, hmsg, hok, fetchGitStatus_commitMessage]
  · simp [handleCommit, hmsg, hok]
  · intro m hm
    simp [handleCommit, hmsg, hok, fetchGitStatus, hm]

/-- Witness for C7 with a concrete 40-character hash. -/
theorem handleCommit_success_witness :
    (handleCommit
        ⟨some [], fun _ => true, fun _ => true,
          some "0123456789abcdef0123456789abcdef01234567", true, true,
          ⟨"/notes", ⟨"origin", "tok", ⟨"u", "u@example.com"⟩⟩⟩⟩
        ⟨"add note", false, some ⟨[⟨"s.md", false⟩], []⟩, "", false⟩).1.commitMessage = "" ∧
    (handleCommit
        ⟨some [], fun _ => true, fun _ => true,
          some "0123456789abcdef0123456789abcdef01234567", true, true,
          ⟨"/notes", ⟨"origin", "tok", ⟨"u", "u@example.com"⟩⟩⟩⟩
        ⟨"add note", false, some ⟨[⟨"s.md", false⟩], []⟩, "", false⟩).1.statusMessage =
      "変更をコミットしました: " ++ String.take "0123456789abcdef0123456789abcdef01234567" 7 := by
  have h := handleCommit_success
      ⟨some [], fun _ => true, fun _ => true,
        some "0123456789abcdef0123456789abcdef01234567", true, true,
        ⟨"/notes", ⟨"origin", "tok", ⟨"u", "u@example.com"⟩⟩⟩⟩
      ⟨"add note", false, some ⟨[⟨"s.md", false⟩], []⟩, "", false⟩
      "0123456789abcdef0123456789abcdef01234567" (by decide) rfl
  exact ⟨h.1, h.2.2 [] rfl⟩

/-- C8 counterexample: with a non-empty message but an empty staged list the
handler still issues external calls — the claim that an empty staged list
suppresses the external call is false of `handleCommit`, which checks only
the message. -/
theorem handleCommit_empty_staged_still_calls :
    (⟨"fix typo", false, some ⟨[], []⟩, "", false⟩ : ControllerState).gitStatus =
      some ⟨[], []⟩ ∧
    (handleCommit
        ⟨some [], fun _ => true, fun _ => true, some "abc1234def", true, true,
          ⟨"/notes", ⟨"origin", "tok", ⟨"u", "u@example.com"⟩⟩⟩⟩
        ⟨"fix typo", false, some ⟨[], []⟩, "", false⟩).2 =
      [GitCall.commit "fix typo", GitCall.status] := by
  constructor
  · rfl
  · rfl

/-- C8 (amended): the handler enforces only the non-empty-message
precondition — an empty message means no external call and a completely
unchanged state; the staged-non-empty precondition is enforced solely at the
UI level, where the commit-message input is disabled exactly when no
classification exists or the staged list is empty. -/
theorem handleCommit_guard_amended (env : GitEnv) (s : ControllerState) :
    (s.commitMessage = "" → handleCommit env s = (s, [])) ∧
    (s.gitStatus = none → commitMessageDisabled s = true) ∧
    (∀ gs, s.gitStatus = some gs → (commitMessageDisabled s = true ↔ gs.staged = [])) := by
  refine ⟨?_, ?_, ?_⟩
  · intro h
    simp [handleCommit, h]
  · intro h
    simp [commitMessageDisabled, h]
  · intro gs h
    simp [commitMessageDisabled, h, List.length_eq_zero]

/-- Witness for the amended C8: an empty message leaves the state untouched
and makes no call, and the input is disabled on an empty staged list. -/
theorem handleCommit_guard_amended_witness :
    handleCommit
        ⟨some [], fun _ => true, fun _ => true, some "sha", true, true,
          ⟨"/notes", ⟨"origin", "tok", ⟨"u", "u@example.com"⟩⟩⟩⟩
        ⟨"", true, some ⟨[], [⟨"u.md", false⟩]⟩, "old", true⟩ =
      (⟨"", true, some ⟨[], [⟨"u.md", false⟩]⟩, "old", true⟩, []) ∧
    commitMessageDisabled ⟨"", true, some ⟨[], [⟨"u.md", false⟩]⟩, "old", true⟩ = true := by
  have h := handleCommit_guard_amended
      ⟨some [], fun _ => true, fun _ => true, some "sha", true, true,
        ⟨"/notes", ⟨"origin", "tok", ⟨"u", "u@example.com"⟩⟩⟩⟩
      ⟨"", true, some ⟨[], [⟨"u.md", false⟩]⟩, "old", true⟩
  exact ⟨h.1 rfl, (h.2.2 ⟨[], [⟨"u.md", false⟩]⟩ rfl).mpr rfl⟩

/-- C9: `handlePush` issues exactly the push call — never a status refresh —
and besides the status message and loading flag changes nothing (the
classification and message input are untouched) on success and failure
alike; `handlePull` issues exactly one status refresh after a successful
pull and none after a failed one, leaving the classification unchanged on
failure and the message input unchanged in every case. -/
theorem push_pull_frame (env : GitEnv) (s : ControllerState) :
    ((handlePush env s).2 = [GitCall.push] ∧
     (handlePush env s).1.gitStatus = s.gitStatus ∧
     (handlePush env s).1.commitMessage = s.commitMessage ∧
     (handlePush env s).1.isLoading = false) ∧
    (env.pullOk = true →
      (handlePull env s).2 = [GitCall.pull, GitCall.status] ∧
      (handlePull env s).1.commitMessage = s.commitMessage ∧
      (handlePull env s).1.isLoading = false) ∧
    (env.pullOk = false →
      (handlePull env s).2 = [GitCall.pull] ∧
      (handlePull env s).1.gitStatus = s.gitStatus ∧
      (handlePull env s).1.commitMessage = s.commitMessage ∧
      (handlePull env s).1.isLoading = false) := by
  refine ⟨?_, ?_, ?_⟩
  · cases hp : env.pushOk <;> simp [handlePush, hp]
  · intro hp
    simp [handlePull, hp, fetchGitStatus_commitMessage]
  · intro hp
    simp [handlePull, hp]

/-- Witness for C9 covering a push, a successful pull and a failed pull. -/
theorem push_pull_frame_witness :
    (handlePush
        ⟨some [], fun _ => true, fun _ => true, some "sha", true, true,
          ⟨"/notes", ⟨"origin", "tok", ⟨"u", "u@example.com"⟩⟩⟩⟩
        ⟨"m", false, some ⟨[], []⟩, "", false⟩).2 = [GitCall.push] ∧
    (handlePull
        ⟨some [], fun _ => true, fun _ => true, some "sha", true, true,
          ⟨"/notes", ⟨"origin", "tok", ⟨"u", "u@example.com"⟩⟩⟩⟩
        ⟨"m", false, some ⟨[], []⟩, "", false⟩).2 = [GitCall.pull, GitCall.status] ∧
    (handlePull
        ⟨some [], fun _ => true, fun _ => true, some "sha", true, false,
          ⟨"/notes", ⟨"origin", "tok", ⟨"u", "u@example.com"⟩⟩⟩⟩
        ⟨"m", false, some ⟨[], []⟩, "", false⟩).2 = [GitCall.pull] := by
  refine ⟨?_, ?_, ?_⟩
  · exact (push_pull_frame
        ⟨some [], fun _ => true, fun _ => true, some "sha", true, true,
          ⟨"/notes", ⟨"origin", "tok", ⟨"u", "u@example.com"⟩⟩⟩⟩
        ⟨"m", false, some ⟨[], []⟩, "", false⟩).1.1
  · exact ((push_pull_frame
        ⟨some [], fun _ => true, fun _ => true, some "sha", true, true,
          ⟨"/notes", ⟨"origin", "tok", ⟨"u", "u@example.com"⟩⟩⟩⟩
        ⟨"m", false, some ⟨[], []⟩, "", false⟩).2.1 rfl).1
  · exact ((push_pull_frame
        ⟨some [], fun _ => true, fun _ => true, some "sha", true, false,
          ⟨"/notes", ⟨"origin", "tok", ⟨"u", "u@example.com"⟩⟩⟩⟩
        ⟨"m", false, some ⟨[], []⟩, "", false⟩).2.2 rfl).1

/-- C10: in `handleStageAll`, a failing per-file stage call aborts the loop:
files before the failing entry each get their call, the failing entry's call
is the last one issued, later entries get none, no status refresh happens
(the classification is left untouched), the failure message is set and the
loading flag is still cleared; `handleUnstageAll` behaves symmetrically over
the staged list. -/
theorem bulk_ops_abort_on_first_failure (env : GitEnv) (s : ControllerState)
    (gs : GitStatus) (pre post : List FileChange) (f : FileChange) :
    (s.gitStatus = some gs → gs.unstaged = pre ++ f :: post →
      (∀ g ∈ pre, env.addOk g.filename = true) → env.addOk f.filename = false →
      (handleStageAll env s).2 =
        pre.map (fun g => GitCall.add g.filename) ++ [GitCall.add f.filename] ∧
      (handleStageAll env s).1.statusMessage = "変更のステージングに失敗しました" ∧
      (handleStageAll env s).1.isLoading = false ∧
      (handleStageAll env s).1.gitStatus = s.gitStatus) ∧
    (s.gitStatus = some gs → gs.staged = pre ++ f :: post →
      (∀ g ∈ pre, env.unstageOk g.filename = true) → env.unstageOk f.filename = false →
      (handleUnstageAll env s).2 =
        pre.map (fun g => GitCall.unstage g.filename) ++ [GitCall.unstage f.filename] ∧
      (handleUnstageAll env s).1.statusMessage = "ステージング取り消しに失敗しました" ∧
      (handleUnstageAll env s).1.isLoading = false ∧
      (handleUnstageAll env s).1.gitStatus = s.gitStatus) := by
  constructor
  · intro hgs hsplit hpre hf
    have hlen : (gs.unstaged.length == 0) = false := by
      simp [hsplit]
    have hcalls := stageAllCalls_abort env pre post f hpre hf
    rw [← hsplit] at hcalls
    simp [handleStageAll, hgs, hlen, hcalls]
  · intro hgs hsplit hpre hf
    have hlen : (gs.staged.length == 0) = false := by
      simp [hsplit]
    have hcalls := unstageAllCalls_abort env pre post f hpre hf
    rw [← hsplit] at hcalls
    simp [handleUnstageAll, hgs, hlen, hcalls]

/-- Witness for C10: with `unstaged = [a, b, c]` and the call for `b`
failing, exactly `add a` then `add b` are issued, no refresh happens and the
state reports the failure with loading cleared. -/
theorem bulk_ops_abort_on_first_failure_witness :
    (handleStageAll
        ⟨some [], fun n => n != "b", fun _ => true, some "sha", true, true,
          ⟨"/notes", ⟨"origin", "tok", ⟨"u", "u@example.com"⟩⟩⟩⟩
        ⟨"", false,
          some ⟨[], [⟨"a", false⟩, ⟨"b", false⟩, ⟨"c", false⟩]⟩, "", false⟩).2 =
      [GitCall.add "a", GitCall.add "b"] ∧
    (handleStageAll
        ⟨some [], fun n => n != "b", fun _ => true, some "sha", true, true,
          ⟨"/notes", ⟨"origin", "tok", ⟨"u", "u@example.com"⟩⟩⟩⟩
        ⟨"", false,
          some ⟨[], [⟨"a", false⟩, ⟨"b", false⟩, ⟨"c", false⟩]⟩, "", false⟩).1.isLoading =
      false := by
  have h := (bulk_ops_abort_on_first_failure
      ⟨some [], fun n => n != "b", fun _ => true, some "sha", true, true,
        ⟨"/notes", ⟨"origin", "tok", ⟨"u", "u@example.com"⟩⟩⟩⟩
      ⟨"", false,
        some ⟨[], [⟨"a", false⟩, ⟨"b", false⟩, ⟨"c", false⟩]⟩, "", false⟩
      ⟨[], [⟨"a", false⟩, ⟨"b", false⟩, ⟨"c", false⟩]⟩
      [⟨"a", false⟩] [⟨"c", false⟩] ⟨"b", false⟩).1
      rfl rfl (by decide) (by decide)
  exact ⟨by simpa using h.1, h.2.2.1⟩
